import Mathlib

/-!
Shallow embedding of the blackjack terminal game (`src/main.rs`) and proofs
about its hand-valuation and round-resolution logic.

Modelling conventions:
* Machine integers (`i8` scores, `i32` money) are modelled as `Int`; no score
  or bankroll reachable in play overflows its Rust type, and Rust's truncating
  `i32` division is rendered explicitly with `Int.tdiv`.
* The deck is modelled as the list of cards **in draw order**: `Deck::draw`
  is `Vec::pop`, which removes the storage vector's last element, i.e. the
  head of the draw-order list.
* Fallible steps (`unwrap` on an exhausted deck, blocking reads that never
  get an answer) are modelled with `Option`, `none` standing for the
  panic/blocked executions.
* Interactive input is modelled by passing the list of successive input
  lines as an explicit argument.
-/

namespace Blackjack

/-- The four card suits (`enum Suit` in `main.rs`). -/
inductive Suit where
  | hearts
  | diamonds
  | clubs
  | spades
deriving DecidableEq

/-- A playing card (`struct Card`): a rank together with a suit.  `Card::new`
rejects every rank outside `1..=13`, so all `Card` values occurring in the
program satisfy the rank invariant, which we carry in the rank's subtype
(the spec's data model states the same invariant). -/
structure Card where
  value : {n : Nat // 1 ≤ n ∧ n ≤ 13}
  suit : Suit
deriving DecidableEq

/-- `Card::new(value, suit)` (main.rs:36–42): errors with "Invalid card value"
unless `(1..=13).contains(&value)`, otherwise constructs the card. -/
def Card.new (value : Nat) (suit : Suit) : Except String Card :=
  if h : 1 ≤ value ∧ value ≤ 13 then
    Except.ok ⟨⟨value, h⟩, suit⟩
  else
    Except.error "Invalid card value"

/-- Helper for writing concrete cards in examples (not part of the source):
`cardOf n s` is the card of rank `n` (for ranks 1–13) and suit `s`. -/
def cardOf (n : Nat) (s : Suit) : Card :=
  if h : 1 ≤ n ∧ n ≤ 13 then ⟨⟨n, h⟩, s⟩ else ⟨⟨1, by decide⟩, s⟩

/-- Loop body of `hand_scores` (main.rs:86–95): the accumulator carries the
running total and the `seen_ace` flag; an ace adds 1 and sets the flag, a
face card (11–13) adds 10, any other rank adds its own value. -/
def scoreStep (acc : Int × Bool) (card : Card) : Int × Bool :=
  if card.value.val = 1 then (acc.1 + 1, true)
  else if 11 ≤ card.value.val ∧ card.value.val ≤ 13 then (acc.1 + 10, acc.2)
  else (acc.1 + (card.value.val : Int), acc.2)

/-- `hand_scores` (main.rs:82–103): fold the loop body over the hand starting
from `(0, false)`, yield `vec![total]`, and push `total + 10` as a second
score when an ace was seen and the promoted total stays ≤ 21.  The `i8`
arithmetic is modelled exactly (no reachable hand's total leaves `i8` range,
and debug Rust would panic rather than wrap). -/
def hand_scores (cards : List Card) : List Int :=
  let acc := cards.foldl scoreStep (0, false)
  if acc.2 ∧ acc.1 + 10 ≤ 21 then [acc.1, acc.1 + 10] else [acc.1]

/-- Face value of a card as described by the spec (§4.1 step 1):
rank 1 → 1, ranks 11–13 → 10, otherwise the rank itself. -/
def faceValue (c : Card) : Int :=
  if c.value.val = 1 then 1
  else if 11 ≤ c.value.val ∧ c.value.val ≤ 13 then 10
  else (c.value.val : Int)

/-- Sum of the face values of a hand (the spec's `base_total`, §4.1 step 2). -/
def baseTotal (cards : List Card) : Int :=
  (cards.map faceValue).sum

/-- Whether some card of the hand has rank 1 (the spec's "an ace was present"). -/
def hasAce (cards : List Card) : Bool :=
  cards.any fun c => c.value.val = 1

/-- `scores.iter().max().unwrap()`: maximum of a score list; the `[]` case
(0) models the unreachable `unwrap` on an empty iterator — `hand_scores`
never returns an empty vector. -/
def listMax : List Int → Int
  | [] => 0
  | x :: xs => xs.foldl max x

/-- `answer.to_lowercase().starts_with(c)` for the targets `c = 'h'` and
`c = 's'` (main.rs:196, 200), decided on the answer's first character.
Rust's Unicode lowercasing maps a first character to `'h'`/`'s'` exactly
when it is `'h'`/`'H'` resp. `'s'`/`'S'`, which `Char.toLower` reproduces. -/
def answerStarts (answer : String) (c : Char) : Bool :=
  match answer.data with
  | [] => false
  | a :: _ => a.toLower = c

/-- Player decision loop (main.rs:191–203): while the first score is below 21
and no score equals 21, consume one input line per iteration — an
`h`-prefixed answer draws a card and recomputes the scores, an `s`-prefixed
answer stands, anything else re-prompts.  Returns the final player hand and
the remaining deck; `none` models running out of answers (a read that blocks
forever) or drawing from an empty deck (`unwrap` panic). -/
def playerTurn : List String → List Card → List Card → Option (List Card × List Card)
  | [], deck, hand =>
    if (hand_scores hand).headI < 21 then
      if (hand_scores hand).any (fun s => s = 21) then some (hand, deck)
      else none
    else some (hand, deck)
  | answer :: rest, deck, hand =>
    if (hand_scores hand).headI < 21 then
      if (hand_scores hand).any (fun s => s = 21) then some (hand, deck)
      else if answerStarts answer 'h' then
        match deck with
        | [] => none
        | card :: deckRest => playerTurn rest deckRest (hand ++ [card])
      else if answerStarts answer 's' then some (hand, deck)
      else playerTurn rest deck hand
    else some (hand, deck)

/-- Dealer draw loop (main.rs:211–214): while the maximum of the dealer's
scores is below 17, draw a card and recompute the scores.  Returns the final
dealer hand and the remaining deck; `none` models the `unwrap` panic on an
exhausted deck. -/
def dealerPlay : List Card → List Card → Option (List Card × List Card)
  | [], hand =>
    if listMax (hand_scores hand) < 17 then none
    else some (hand, [])
  | c :: rest, hand =>
    if listMax (hand_scores hand) < 17 then dealerPlay rest (hand ++ [c])
    else some (hand, c :: rest)

/-- Result of one round: the bankroll and the final player hand, dealer hand
and deck. -/
structure RoundOutcome where
  money : Int
  playerHand : List Card
  dealerHand : List Card
  deck : List Card
deriving DecidableEq

/-- One round of `main`'s session loop (main.rs:172–233), from the moment the
bet is accepted: deduct the bet, deal player/dealer/player/dealer, run the
player's turn, then either resolve a player bust (all scores over 21: no
dealer play, no further bankroll change) or run the dealer and settle —
dealer bust or dealer below player adds `bet * 3 / 2` (Rust `i32` division
truncates toward zero, hence `Int.tdiv`), dealer above player adds nothing,
a push adds back `bet`. -/
def playRound (money bet : Int) (answers : List String) (deck : List Card) :
    Option RoundOutcome :=
  match deck with
  | p1 :: q1 :: p2 :: q2 :: deck4 =>
    match playerTurn answers deck4 [p1, p2] with
    | none => none
    | some (ph, deck5) =>
      if (hand_scores ph).all (fun s => 21 < s) then
        some ⟨money - bet, ph, [q1, q2], deck5⟩
      else
        match dealerPlay deck5 [q1, q2] with
        | none => none
        | some (dh, deck6) =>
          let dealerBest := listMax (hand_scores dh)
          let playerBest := listMax (hand_scores ph)
          if 21 < dealerBest then
            some ⟨money - bet + Int.tdiv (bet * 3) 2, ph, dh, deck6⟩
          else if playerBest < dealerBest then
            some ⟨money - bet, ph, dh, deck6⟩
          else if dealerBest < playerBest then
            some ⟨money - bet + Int.tdiv (bet * 3) 2, ph, dh, deck6⟩
          else
            some ⟨money - bet + bet, ph, dh, deck6⟩
  | _ => none

/-- Rust Unicode trim (`str::trim`) on a character list: drop whitespace from
both ends. -/
def trimChars (cs : List Char) : List Char :=
  ((cs.dropWhile Char.isWhitespace).reverse.dropWhile Char.isWhitespace).reverse

/-- Digit run of Rust integer parsing: `none` unless the list is one or more
ASCII decimal digits, otherwise their value. -/
def parseDigits : List Char → Option Nat
  | [] => none
  | cs =>
    if cs.all (fun c => '0' ≤ c ∧ c ≤ '9') then
      some (cs.foldl (fun n c => 10 * n + (c.toNat - 48)) 0)
    else none

/-- Rust `str::parse::<i32>` on a character list: an optional `+`/`-` sign,
one or more ASCII digits, and the value must fit in `i32`. -/
def parse_i32 : List Char → Option Int
  | [] => none
  | c :: cs =>
    let signed : Int × List Char :=
      if c = '-' then (-1, cs) else if c = '+' then (1, cs) else (1, c :: cs)
    match parseDigits signed.2 with
    | none => none
    | some n =>
      let v := signed.1 * (n : Int)
      if -(2 ^ 31) ≤ v ∧ v ≤ 2 ^ 31 - 1 then some v else none

/-- `read_bet_amount` (main.rs:113–131) over the list of successive input
lines: parse `input.trim()` as an `i32`; a parse failure, an amount above
`max` (after printing a message) or a non-positive amount re-prompts on the
next line; otherwise the amount is returned.  `none` models running out of
input lines (the loop blocks forever). -/
def read_bet_amount (max : Int) : List String → Option Int
  | [] => none
  | input :: rest =>
    match parse_i32 (trimChars input.data) with
    | some n =>
      if max < n then read_bet_amount max rest
      else if n ≤ 0 then read_bet_amount max rest
      else some n
    | none => read_bet_amount max rest

end Blackjack

namespace Blackjack

/-! ### Characterisation of `hand_scores` -/

/-- Folding the loop body of `hand_scores` over a hand adds the spec's
`base_total` to the running total and or-accumulates ace presence. -/
lemma foldl_scoreStep (cards : List Card) :
    ∀ (t : Int) (b : Bool),
      cards.foldl scoreStep (t, b) = (t + baseTotal cards, b || hasAce cards) := by
  induction cards with
  | nil =>
    intro t b
    simp [baseTotal, hasAce]
  | cons c cs ih =>
    intro t b
    simp only [List.foldl_cons, ih]
    unfold scoreStep
    by_cases h1 : c.value.val = 1
    · simp [baseTotal, hasAce, faceValue, h1]
      ring
    · by_cases h2 : 11 ≤ c.value.val ∧ c.value.val ≤ 13
      · simp [baseTotal, hasAce, faceValue, h1, h2]
        ring
      · simp [baseTotal, hasAce, faceValue, h1, h2]
        ring

/-- `hand_scores` in closed form: the base total, together with the promoted
total exactly when an ace is present and the promotion stays within 21. -/
lemma hand_scores_eq (cards : List Card) :
    hand_scores cards =
      if hasAce cards ∧ baseTotal cards + 10 ≤ 21 then
        [baseTotal cards, baseTotal cards + 10]
      else [baseTotal cards] := by
  unfold hand_scores
  rw [foldl_scoreStep]
  simp

end Blackjack

namespace Blackjack

/-! ### Claims about `hand_scores` -/

/-- C2: for every non-empty hand, `hand_scores` returns exactly the set
`{base_total} ∪ (if an ace is present and base_total + 10 ≤ 21 then
{base_total + 10} else ∅)`, where `base_total` sums the face values
rank 1 → 1, ranks 11–13 → 10, other ranks → themselves. -/
theorem hand_scores_set_spec (cards : List Card) (_hne : cards ≠ []) :
    (hand_scores cards).toFinset =
      {baseTotal cards} ∪
        (if hasAce cards ∧ baseTotal cards + 10 ≤ 21 then
          ({baseTotal cards + 10} : Finset Int)
        else ∅) := by
  rw [hand_scores_eq]
  split_ifs with h
  · simp [Finset.insert_eq]
  · simp

/-- Witness for C2 at the concrete hand {A♥, 10♥}. -/
theorem hand_scores_set_spec_witness :
    ([cardOf 1 .hearts, cardOf 10 .hearts] : List Card) ≠ [] ∧
      (hand_scores [cardOf 1 .hearts, cardOf 10 .hearts]).toFinset =
        {baseTotal [cardOf 1 .hearts, cardOf 10 .hearts]} ∪
          (if hasAce [cardOf 1 .hearts, cardOf 10 .hearts] ∧
              baseTotal [cardOf 1 .hearts, cardOf 10 .hearts] + 10 ≤ 21 then
            ({baseTotal [cardOf 1 .hearts, cardOf 10 .hearts] + 10} : Finset Int)
          else ∅) :=
  ⟨by decide, hand_scores_set_spec [cardOf 1 .hearts, cardOf 10 .hearts] (by decide)⟩

/-- C3: `hand_scores` is invariant under permutation of the hand. -/
theorem hand_scores_perm_invariant (cards1 cards2 : List Card)
    (hp : cards1.Perm cards2) :
    hand_scores cards1 = hand_scores cards2 := by
  have hb : baseTotal cards1 = baseTotal cards2 :=
    List.Perm.sum_eq (hp.map faceValue)
  have ha : hasAce cards1 = hasAce cards2 := by
    unfold hasAce
    rw [Bool.eq_iff_iff, List.any_eq_true, List.any_eq_true]
    constructor
    · rintro ⟨c, hc, h1⟩
      exact ⟨c, hp.mem_iff.mp hc, h1⟩
    · rintro ⟨c, hc, h1⟩
      exact ⟨c, hp.mem_iff.mpr hc, h1⟩
  rw [hand_scores_eq, hand_scores_eq, hb, ha]

/-- Witness for C3 at the swapped hand {5♥, 8♠}. -/
theorem hand_scores_perm_invariant_witness :
    hand_scores [cardOf 5 .hearts, cardOf 8 .spades] =
      hand_scores [cardOf 8 .spades, cardOf 5 .hearts] :=
  hand_scores_perm_invariant _ _ (by decide)

/-- C7: every hand yields at most two totals — only one +10 promotion is ever
applied — and in particular the hand {5♥, A♥, A♥} yields exactly [7, 17]. -/
theorem hand_scores_at_most_two :
    (∀ cards : List Card, (hand_scores cards).length ≤ 2) ∧
      hand_scores [cardOf 5 .hearts, cardOf 1 .hearts, cardOf 1 .hearts] = [7, 17] := by
  constructor
  · intro cards
    rw [hand_scores_eq]
    split_ifs <;> simp
  · decide

/-- C10: `hand_scores` is total, returning `[0]` on the empty hand; its
result is never empty, its first element is the base total and a lower bound
of the whole result, and a second element, when present, is the first
plus 10. -/
theorem hand_scores_total_shape :
    hand_scores ([] : List Card) = [0] ∧
      (∀ cards : List Card, hand_scores cards ≠ []) ∧
      (∀ cards : List Card, (hand_scores cards).headI = baseTotal cards) ∧
      (∀ cards : List Card, ∀ x ∈ hand_scores cards, (hand_scores cards).headI ≤ x) ∧
      (∀ (cards : List Card) (x : Int),
        (hand_scores cards)[1]? = some x → x = (hand_scores cards).headI + 10) := by
  refine ⟨by decide, ?_, ?_, ?_, ?_⟩
  · intro cards
    rw [hand_scores_eq]
    split_ifs <;> simp
  · intro cards
    rw [hand_scores_eq]
    split_ifs <;> simp
  · intro cards x hx
    rw [hand_scores_eq] at hx ⊢
    split_ifs at hx ⊢ with h
    · simp only [List.mem_cons, List.mem_singleton, List.not_mem_nil, or_false] at hx
      show baseTotal cards ≤ x
      rcases hx with rfl | rfl
      · exact le_refl _
      · omega
    · simp only [List.mem_singleton] at hx
      show baseTotal cards ≤ x
      omega
  · intro cards x hx
    rw [hand_scores_eq] at hx ⊢
    split_ifs at hx ⊢ with h
    · simp_all
    · simp_all

/-- Witness for C10 at the concrete hand {A♥, 6♣}, whose score list is
[7, 17]: the second element is the first plus 10. -/
theorem hand_scores_total_shape_witness :
    (17 : Int) = (hand_scores [cardOf 1 .hearts, cardOf 6 .clubs]).headI + 10 :=
  hand_scores_total_shape.2.2.2.2 [cardOf 1 .hearts, cardOf 6 .clubs] 17 (by decide)

end Blackjack

namespace Blackjack

/-! ### Dealer draw loop -/

/-- If the dealer loop terminates normally (no deck exhaustion), the final
hand's best score is at least 17. -/
lemma dealerPlay_some_ge (deck : List Card) :
    ∀ hand finalHand finalDeck,
      dealerPlay deck hand = some (finalHand, finalDeck) →
      17 ≤ listMax (hand_scores finalHand) := by
  induction deck with
  | nil =>
    intro hand fh fd h
    unfold dealerPlay at h
    split_ifs at h with hc
    simp only [Option.some.injEq, Prod.mk.injEq] at h
    exact h.1 ▸ not_lt.mp hc
  | cons c rest ih =>
    intro hand fh fd h
    unfold dealerPlay at h
    split_ifs at h with hc
    · exact ih _ _ _ h
    · simp only [Option.some.injEq, Prod.mk.injEq] at h
      exact h.1 ▸ not_lt.mp hc

/-- C4: the dealer draw loop draws exactly while the maximum of its score set
is below 17 — it stops immediately (drawing nothing) once that maximum is at
least 17, every normal termination ends with maximum at least 17, and when
the maximum is below 17 and a card is available the loop consumes it. -/
theorem dealer_draw_policy (deck hand : List Card) :
    (17 ≤ listMax (hand_scores hand) → dealerPlay deck hand = some (hand, deck)) ∧
      (∀ finalHand finalDeck,
        dealerPlay deck hand = some (finalHand, finalDeck) →
        17 ≤ listMax (hand_scores finalHand)) ∧
      (listMax (hand_scores hand) < 17 →
        ∀ c rest, deck = c :: rest →
          dealerPlay deck hand = dealerPlay rest (hand ++ [c])) := by
  refine ⟨?_, fun fh fd h => dealerPlay_some_ge deck hand fh fd h, ?_⟩
  · intro hge
    cases deck <;> simp [dealerPlay, not_lt.mpr hge]
  · intro hlt c rest hdeck
    subst hdeck
    simp [dealerPlay, hlt]

/-- Witness for C4: a dealer already holding 18 draws nothing. -/
theorem dealer_draw_policy_witness :
    dealerPlay [] [cardOf 10 .hearts, cardOf 8 .hearts] =
      some ([cardOf 10 .hearts, cardOf 8 .hearts], []) :=
  (dealer_draw_policy [] [cardOf 10 .hearts, cardOf 8 .hearts]).1 (by decide)

/-! ### Round resolution -/

/-- C5: when every score of the player's final hand exceeds 21, the round is
a player bust: the bankroll is the pre-round value minus the bet and the
dealer's hand keeps exactly its two dealt cards (the dealer loop never
runs, so the deck is exactly what the player's turn left). -/
theorem player_bust_frame (money bet : Int) (answers : List String)
    (p1 q1 p2 q2 : Card) (deck4 ph deck5 : List Card)
    (hpt : playerTurn answers deck4 [p1, p2] = some (ph, deck5))
    (hbust : (hand_scores ph).all (fun s => 21 < s) = true) :
    playRound money bet answers (p1 :: q1 :: p2 :: q2 :: deck4) =
      some ⟨money - bet, ph, [q1, q2], deck5⟩ := by
  simp [playRound, hpt, hbust]

/-- Witness for C5: bankroll 1000, bet 50, the player hits 10+9+5 = 24 and
busts; the bankroll ends at 1000 − 50 and the dealer keeps its two cards. -/
theorem player_bust_frame_witness :
    playRound 1000 50 ["h"]
        [cardOf 10 .hearts, cardOf 10 .clubs, cardOf 9 .hearts, cardOf 8 .clubs,
          cardOf 5 .spades] =
      some ⟨1000 - 50, [cardOf 10 .hearts, cardOf 9 .hearts, cardOf 5 .spades],
        [cardOf 10 .clubs, cardOf 8 .clubs], []⟩ :=
  player_bust_frame 1000 50 ["h"] (cardOf 10 .hearts) (cardOf 10 .clubs)
    (cardOf 9 .hearts) (cardOf 8 .clubs) [cardOf 5 .spades]
    [cardOf 10 .hearts, cardOf 9 .hearts, cardOf 5 .spades] []
    (by decide) (by decide)

/-- C6: a push (equal best scores, dealer not busted) adds back exactly the
bet, so the bankroll ends at its pre-round value. -/
theorem push_restores_bet (money bet : Int) (answers : List String)
    (p1 q1 p2 q2 : Card) (deck4 ph deck5 dh deck6 : List Card)
    (hpt : playerTurn answers deck4 [p1, p2] = some (ph, deck5))
    (hnb : ¬(hand_scores ph).all (fun s => 21 < s) = true)
    (hdp : dealerPlay deck5 [q1, q2] = some (dh, deck6))
    (hle : listMax (hand_scores dh) ≤ 21)
    (heq : listMax (hand_scores dh) = listMax (hand_scores ph)) :
    playRound money bet answers (p1 :: q1 :: p2 :: q2 :: deck4) =
      some ⟨money, ph, dh, deck6⟩ := by
  have h1 : ¬(21 < listMax (hand_scores dh)) := not_lt.mpr hle
  have h2 : ¬(listMax (hand_scores ph) < listMax (hand_scores dh)) := by omega
  have h3 : ¬(listMax (hand_scores dh) < listMax (hand_scores ph)) := by omega
  have h4 : money - bet + bet = money := by ring
  simp [playRound, hpt, hnb, hdp, h1, h2, h3, h4]

/-- Witness for C6: both sides hold 20; the bankroll returns to 1000. -/
theorem push_restores_bet_witness :
    playRound 1000 100 ["s"]
        [cardOf 10 .hearts, cardOf 10 .clubs, cardOf 10 .diamonds, cardOf 10 .spades] =
      some ⟨1000, [cardOf 10 .hearts, cardOf 10 .diamonds],
        [cardOf 10 .clubs, cardOf 10 .spades], []⟩ :=
  push_restores_bet 1000 100 ["s"] (cardOf 10 .hearts) (cardOf 10 .clubs)
    (cardOf 10 .diamonds) (cardOf 10 .spades) []
    [cardOf 10 .hearts, cardOf 10 .diamonds] [] [cardOf 10 .clubs, cardOf 10 .spades] []
    (by decide) (by decide) (by decide) (by decide) (by decide)

/-- C1 counterexample: bankroll 1000, bet 100, the player stands on a made 20
and the dealer holds 18 — a player win, yet the bankroll ends at 1050, not
the 1000 + ⌊100·3/2⌋ = 1150 the claim asserts (the code adds only
`bet * 3 / 2`, never returning the stake). -/
theorem win_payout_counterexample :
    playRound 1000 100 ["s"]
        [cardOf 10 .hearts, cardOf 10 .clubs, cardOf 10 .diamonds, cardOf 8 .clubs] =
      some ⟨1050, [cardOf 10 .hearts, cardOf 10 .diamonds],
        [cardOf 10 .clubs, cardOf 8 .clubs], []⟩ ∧
      listMax (hand_scores [cardOf 10 .clubs, cardOf 8 .clubs]) = 18 ∧
      listMax (hand_scores [cardOf 10 .hearts, cardOf 10 .diamonds]) = 20 ∧
      (1050 : Int) ≠ 1000 + Int.tdiv (100 * 3) 2 := by
  decide

/-- C1 (amended): on a player win (dealer bust, or dealer best below player
best with the dealer at most 21) the resolution adds `⌊bet·3/2⌋` — not
`bet + ⌊bet·3/2⌋` — to the already-deducted bankroll, so the net change from
the pre-round value is `⌊bet·3/2⌋ − bet`. -/
theorem win_payout (money bet : Int) (answers : List String)
    (p1 q1 p2 q2 : Card) (deck4 ph deck5 dh deck6 : List Card)
    (hpt : playerTurn answers deck4 [p1, p2] = some (ph, deck5))
    (hnb : ¬(hand_scores ph).all (fun s => 21 < s) = true)
    (hdp : dealerPlay deck5 [q1, q2] = some (dh, deck6))
    (hwin : 21 < listMax (hand_scores dh) ∨
      (listMax (hand_scores dh) ≤ 21 ∧
        listMax (hand_scores dh) < listMax (hand_scores ph))) :
    playRound money bet answers (p1 :: q1 :: p2 :: q2 :: deck4) =
      some ⟨money - bet + Int.tdiv (bet * 3) 2, ph, dh, deck6⟩ := by
  rcases hwin with hbustD | ⟨hle, hlt⟩
  · simp [playRound, hpt, hnb, hdp, hbustD]
  · have h1 : ¬(21 < listMax (hand_scores dh)) := not_lt.mpr hle
    have h2 : ¬(listMax (hand_scores ph) < listMax (hand_scores dh)) := by omega
    simp [playRound, hpt, hnb, hdp, h1, h2, hlt]

/-- Witness for the amended C1: the same win round ends at 1000 − 100 + 150. -/
theorem win_payout_witness :
    playRound 1000 100 ["s"]
        [cardOf 10 .hearts, cardOf 10 .clubs, cardOf 10 .diamonds, cardOf 8 .clubs] =
      some ⟨1000 - 100 + Int.tdiv (100 * 3) 2, [cardOf 10 .hearts, cardOf 10 .diamonds],
        [cardOf 10 .clubs, cardOf 8 .clubs], []⟩ :=
  win_payout 1000 100 ["s"] (cardOf 10 .hearts) (cardOf 10 .clubs)
    (cardOf 10 .diamonds) (cardOf 8 .clubs) []
    [cardOf 10 .hearts, cardOf 10 .diamonds] [] [cardOf 10 .clubs, cardOf 8 .clubs] []
    (by decide) (by decide) (by decide) (Or.inr (by decide))

end Blackjack

namespace Blackjack

/-! ### Input validation -/

/-- C8: `read_bet_amount max` only ever returns an integer `n` with
`0 < n ∧ n ≤ max`; an input line that fails to parse, parses above `max`, or
parses non-positive is never returned — the loop re-prompts on the remaining
lines instead. -/
theorem read_bet_amount_range (max : Int) :
    (∀ (inputs : List String) (n : Int),
      read_bet_amount max inputs = some n → 0 < n ∧ n ≤ max) ∧
      (∀ (input : String) (rest : List String),
        (parse_i32 (trimChars input.data) = none ∨
          ∃ n, parse_i32 (trimChars input.data) = some n ∧ (max < n ∨ n ≤ 0)) →
        read_bet_amount max (input :: rest) = read_bet_amount max rest) := by
  constructor
  · intro inputs
    induction inputs with
    | nil =>
      intro n h
      simp [read_bet_amount] at h
    | cons input rest ih =>
      intro n h
      rcases hp : parse_i32 (trimChars input.data) with _ | m
      · simp only [read_bet_amount, hp] at h
        exact ih n h
      · simp only [read_bet_amount, hp] at h
        split_ifs at h with h1 h2
        · exact ih n h
        · exact ih n h
        · simp only [Option.some.injEq] at h
          omega
  · intro input rest hcond
    rcases hcond with hnone | ⟨n, hsome, hof⟩
    · simp only [read_bet_amount, hnone]
    · by_cases hmax : max < n
      · simp only [read_bet_amount, hsome]
        rw [if_pos hmax]
      · have hle : n ≤ 0 := by
          rcases hof with h | h
          · exact absurd h hmax
          · exact h
        simp only [read_bet_amount, hsome]
        rw [if_neg hmax, if_pos hle]

/-- Witness for C8: with bankroll 1000, a garbage line is skipped and the
returned bet 100 satisfies 0 < 100 ≤ 1000. -/
theorem read_bet_amount_range_witness :
    ((0 : Int) < 100 ∧ (100 : Int) ≤ 1000) ∧
      read_bet_amount 1000 ["abc", "100"] = read_bet_amount 1000 ["100"] :=
  ⟨(read_bet_amount_range 1000).1 ["100"] 100 (by decide),
    (read_bet_amount_range 1000).2 "abc" ["100"] (Or.inl (by decide))⟩

/-- C9: `Card::new(v, s)` fails exactly when `v` is outside `[1, 13]`, and
for `v` in range returns the card of exactly that rank and suit. -/
theorem card_new_spec (v : Nat) (s : Suit) :
    ((∃ e, Card.new v s = Except.error e) ↔ (v < 1 ∨ 13 < v)) ∧
      (∀ h : 1 ≤ v ∧ v ≤ 13, Card.new v s = Except.ok ⟨⟨v, h⟩, s⟩) := by
  constructor
  · constructor
    · rintro ⟨e, he⟩
      unfold Card.new at he
      split_ifs at he with h
      omega
    · intro hout
      refine ⟨"Invalid card value", ?_⟩
      unfold Card.new
      rw [dif_neg (by omega : ¬(1 ≤ v ∧ v ≤ 13))]
  · intro h
    unfold Card.new
    rw [dif_pos h]

/-- Witness for C9: rank 5 of hearts is constructed successfully. -/
theorem card_new_spec_witness :
    Card.new 5 Suit.hearts = Except.ok ⟨⟨5, by decide⟩, Suit.hearts⟩ :=
  (card_new_spec 5 Suit.hearts).2 (by decide)

end Blackjack
